import Mathlib

/-!
Verification of the transaction normalization and classification engine of
`abnconv.py` (ABN AMRO CAMT.053 → QIF converter).

The Python source is shallowly embedded below:
* pure helper functions become Lean functions,
* the mutable `QIFOutput` object becomes explicit state passing over `QIFState`,
* Python exceptions (`ValueError`, `KeyError`) become `Except String`,
* Python `float` amounts become `ℚ` (only negation and equality are performed
  on amounts, both of which are exact in IEEE 754, so `ℚ` is a faithful model),
* Python `str` narratives become `List Char` where character positions matter
  (the regular-expression scans) and `String` elsewhere.

All definitions are executable and structural, so concrete runs are settled
by `decide` / `rfl`.
-/

set_option maxRecDepth 10000

/-! ### Dates and deterministic formatting

`datetime.datetime` values in the program only ever come from
`strptime(_, "%Y-%m-%d")` and are only consumed through `strftime` with the
formats `"%Y%m%d"` and `"%Y/%m/%d"`.  We model such a value by its
year/month/day triple and the two formatters directly. -/

structure PyDate where
  year : Nat
  month : Nat
  day : Nat
deriving DecidableEq

/-- Zero-padded decimal rendering, as `strftime` produces (`%Y` pads to 4,
`%m`/`%d` pad to 2). -/
def padNum (w : Nat) (n : Nat) : String :=
  let s := toString n
  String.mk (List.replicate (w - s.length) '0') ++ s

/-- `date.strftime("%Y%m%d")`. -/
def strftimeCompact (d : PyDate) : String :=
  padNum 4 d.year ++ padNum 2 d.month ++ padNum 2 d.day

/-- `date.strftime("%Y/%m/%d")`. -/
def strftimeSlash (d : PyDate) : String :=
  padNum 4 d.year ++ "/" ++ padNum 2 d.month ++ "/" ++ padNum 2 d.day

/-- Deterministic stand-in for Python's `str(float)`.  The program renders
amounts with `str` both in the dedup hash string and in the QIF `T` line; it
never does arithmetic on them except negation.  For integral values this
agrees with Python (`str(-5.0) = "-5.0"`); for non-integral values the exact
digit string differs but is deterministic, and no claim depends on the digit
string itself (both the implementation model and the spec-side model render
through this same function). -/
def ratStr (q : ℚ) : String :=
  if q.den == 1 then toString q.num ++ ".0"
  else toString q.num ++ "/" ++ toString q.den

/-- Python `"%s" % v` applied to an `Optional[str]`: `None` prints as
`"None"`. -/
def optFmt : Option String → String
  | none => "None"
  | some s => s

/-! ### A small regular-expression engine

The classifier regexes of `abnconv.py` use only: literal characters, the
character classes `.` `\d` `\s` `\w` and `[GB]`, one-or-more repetition of a
single-character class, fixed (expanded) repetition, alternation and capture
groups.  `reMatches` enumerates the ways a regex can match a prefix of the
input **in Python's backtracking priority order** (alternation: left first;
one-or-more repetition: greedy, longest first), together with the captured
groups.  `reSearchGroups` then implements `re.search`: the leftmost starting
position wins, and at that position the first (highest-priority) match is
taken, exactly as in CPython.  All quantified subexpressions in the four
patterns are single-character classes, so this engine covers them exactly. -/

inductive RE where
  | eps : RE
  | pred : (Char → Bool) → RE
  | cat : RE → RE → RE
  | alt : RE → RE → RE
  | plus : (Char → Bool) → RE
  | grp : Nat → RE → RE

/-- All matches of `r` against a prefix of `s`, in backtracking priority
order.  Each result is the remaining suffix paired with the captured
groups. -/
def reMatches : RE → List Char → List (List Char × List (Nat × List Char))
  | .eps, s => [(s, [])]
  | .pred _, [] => []
  | .pred p, c :: s => if p c then [(s, [])] else []
  | .cat a b, s =>
      (reMatches a s).flatMap fun r1 =>
        (reMatches b r1.1).map fun r2 => (r2.1, r1.2 ++ r2.2)
  | .alt a b, s => reMatches a s ++ reMatches b s
  | .plus p, s =>
      let run := s.takeWhile p
      (List.range run.length).map fun k => (s.drop (run.length - k), [])
  | .grp n r, s =>
      (reMatches r s).map fun r1 => (r1.1, (n, s.take (s.length - r1.1.length)) :: r1.2)

/-- `re.search`: try each start position left to right; at the first position
admitting a match, return the captures of the highest-priority match. -/
def reSearchGroups : RE → List Char → Option (List (Nat × List Char))
  | r, [] => ((reMatches r []).head?).map Prod.snd
  | r, s@(_ :: rest) =>
      match (reMatches r s).head? with
      | some x => some x.2
      | none => reSearchGroups r rest

/-- Boolean form of `re.search` (used where the match object is only tested
for truthiness). -/
def reSearch (r : RE) (s : List Char) : Bool :=
  (reSearchGroups r s).isSome

/-- `match.group(n)`.  Every group used by the program occurs exactly once in
its pattern, so the first capture with the right index is the one. -/
def getGroup (caps : List (Nat × List Char)) (n : Nat) : Option (List Char) :=
  (caps.find? (fun p => p.1 == n)).map Prod.snd

/-! The character classes.  `.` in Python (no `DOTALL`) is any character but
a newline; `\s` is the six ASCII whitespace characters; `\d`/`\w` are modeled
on their ASCII parts (the bank narratives involved are ASCII). -/

def pDot (c : Char) : Bool := c != '\n'

def pDigit (c : Char) : Bool := c.isDigit

def pSpace (c : Char) : Bool :=
  c == ' ' || c == '\t' || c == '\n' || c == '\r' || c == '\x0b' || c == '\x0c'

def pWord (c : Char) : Bool := c.isAlphanum || c == '_'

def reChar (c : Char) : RE := .pred (fun x => x == c)

def reStr (s : String) : RE := s.toList.foldr (fun c r => RE.cat (reChar c) r) RE.eps

def reCats (l : List RE) : RE := l.foldr RE.cat RE.eps

/-- One `\d{2}.` chunk of the BEA date-like token run. -/
def beaDateChunk : RE := reCats [.pred pDigit, .pred pDigit, .pred pDot]

/-- `BEA_re = (?P<subtype>[GB])EA.+(\d{2}.){4}\d{2}(?P<payee>.+),PAS(\d+)`.
Group numbers follow Python's numbering: `subtype` is 1, `payee` is 3 (the
unused repeated group `(\d{2}.)` would be 2 and the trailing `(\d+)` 4; they
are left uncaptured since the program never reads them). -/
def BEA_regex : RE := reCats
  [ .grp 1 (.alt (reChar 'G') (reChar 'B')), reStr "EA", .plus pDot,
    beaDateChunk, beaDateChunk, beaDateChunk, beaDateChunk,
    .pred pDigit, .pred pDigit, .grp 3 (.plus pDot), reStr ",PAS", .plus pDigit ]

/-- `SEPA_re = /TRTP/.+`. -/
def SEPA_regex : RE := RE.cat (reStr "/TRTP/") (.plus pDot)

/-- `ABN_re = (?P<payee>ABN AMRO Bank N.V.)\s+(?P<memo>\w+).+`
(the two dots in `N.V.` are regex dots, as in the source). -/
def ABN_regex : RE := reCats
  [ .grp 1 (reCats [reStr "ABN AMRO Bank N", .pred pDot, reChar 'V', .pred pDot]),
    .plus pSpace, .grp 2 (.plus pWord), .plus pDot ]

/-- `SPAREN_re = ACCOUNT BALANCED\s+(?P<memo>CREDIT INTEREST.+)For interest rates`. -/
def SPAREN_regex : RE := reCats
  [ reStr "ACCOUNT BALANCED", .plus pSpace,
    .grp 1 (RE.cat (reStr "CREDIT INTEREST") (.plus pDot)),
    reStr "For interest rates" ]

/-! ### SEPA field-tag markers

`SEPA_markers_re = /(TRTP|CSID|NAME|MARF|REMI|IBAN|BIC|EREF)/`, consumed via
`finditer`: matches are found left to right and are non-overlapping (the
scan resumes at the end of each match, so a `/` consumed as the closing
slash of one delimiter cannot start the next one).  No tag is a prefix of
another, so at most one alternative matches at a given position. -/

def sepaTags : List (List Char) :=
  ["TRTP", "CSID", "NAME", "MARF", "REMI", "IBAN", "BIC", "EREF"].map String.toList

structure Marker where
  tag : List Char
  mstart : Nat
  mend : Nat
deriving DecidableEq

/-- The tag whose delimiter `/TAG/` starts exactly at the head of `s`, if
any. -/
def markerTagAt (s : List Char) : Option (List Char) :=
  match s with
  | '/' :: rest => sepaTags.find? (fun tg => decide (rest.take (tg.length + 1) = tg ++ ['/']))
  | _ => none

/-- Scan for delimiter matches.  `skip` counts characters still inside the
previously reported match (so matches never overlap, as with `finditer`). -/
def findMarkersAux : List Char → Nat → Nat → List Marker
  | [], _, _ => []
  | _ :: rest, pos, skip + 1 => findMarkersAux rest (pos + 1) skip
  | s@(_ :: rest), pos, 0 =>
      match markerTagAt s with
      | some tg =>
          ⟨tg, pos, pos + tg.length + 2⟩ :: findMarkersAux rest (pos + 1) (tg.length + 1)
      | none => findMarkersAux rest (pos + 1) 0

/-- `SEPA_markers_re.finditer(info)` as the list of matches with their
`start(0)`/`end(0)` positions and the group-1 tag. -/
def findMarkers (info : List Char) : List Marker := findMarkersAux info 0 0

/-- Python slice `s[a:b]` for `0 ≤ a, b` (empty when `b ≤ a`, as in
Python). -/
def pySlice (s : List Char) (a b : Nat) : List Char := (s.drop a).take (b - a)

/-- The `for marker_match in …: if … elif start: return …` loop of
`find_sepa_field`.  The accumulator is `end(0)` of the most recent occurrence
of the requested tag, `none` when no occurrence has been seen.  (Python's
`elif start:` tests truthiness, but `end(0)` of a delimiter match is at least
5, never 0, so truthiness coincides with "has been set".) -/
def sepaLoop (field : List Char) (info : List Char) : List Marker → Option Nat → Option (List Char)
  | [], _ => none
  | m :: rest, acc =>
      if m.tag = field then sepaLoop field info rest (some m.mend)
      else
        match acc with
        | some st => some (pySlice info st m.mstart)
        | none => sepaLoop field info rest none

/-- `process_entry.find_sepa_field`. -/
def find_sepa_field (field : List Char) (info : List Char) : Option (List Char) :=
  if reSearch SEPA_regex info then sepaLoop field info (findMarkers info) none
  else none

/-! ### The account registry and the transaction record

The `accounts` global is an `iban → display name` dict, loaded once from the
configuration file (out-of-scope I/O).  We model it as an insertion-ordered
association list with first-match lookup, passed explicitly to every
definition that consults the global. -/

abbrev Registry : Type := List (String × String)

/-- `iban in accounts`. -/
def containsAccount (reg : Registry) (iban : String) : Bool :=
  reg.any (fun p => p.1 == iban)

/-- `accounts[iban]` (`_get_account`), which raises `KeyError` on a missing
key. -/
def getAccount (reg : Registry) (iban : String) : Except String String :=
  match (reg.find? (fun p => p.1 == iban)).map Prod.snd with
  | some nm => .ok nm
  | none => .error ("KeyError: " ++ iban)

/-- `class Trsx`.  `source_iban` is always a `str` in the program (it comes
from the statement header, or — for a complement — from a `dest_iban` that
resolved in the registry); `dest_iban`, `type`, `payee`, `memo` start as
`None` and may stay so.  `transaction_desc` is the raw narrative. -/
structure Trsx where
  source_iban : String
  dest_iban : Option String
  type : Option String
  date : PyDate
  amount : ℚ
  payee : Option String
  memo : Option String
  transaction_desc : String
deriving DecidableEq

/-- `Trsx.__eq__`: field-by-field comparison of all fields EXCEPT
`transaction_desc` (that comparison is commented out in the source). -/
def trsxEq (a b : Trsx) : Bool :=
  decide (a.source_iban = b.source_iban ∧ a.dest_iban = b.dest_iban ∧
    a.type = b.type ∧ a.date = b.date ∧ a.amount = b.amount ∧
    a.payee = b.payee ∧ a.memo = b.memo)

/-- The string that `Trsx.__hash__` hashes:
`"%s-%s-%s-%s/%s" % (source_iban, dest_iban, date.strftime("%Y%m%d"), str(amount), memo)`.
This is the derived stable fingerprint of the spec. -/
def fingerprint (t : Trsx) : String :=
  t.source_iban ++ "-" ++ optFmt t.dest_iban ++ "-" ++ strftimeCompact t.date ++
    "-" ++ ratStr t.amount ++ "/" ++ optFmt t.memo

/-- `Trsx.is_transfer_transaction`: `self.dest_iban in accounts`.  A `None`
`dest_iban` is never a dict key (the keys are strings), so it yields
`False`. -/
def is_transfer_transaction (reg : Registry) (t : Trsx) : Bool :=
  match t.dest_iban with
  | some d => containsAccount reg d
  | none => false

/-- `Trsx.complementary`: raises `ValueError` unless
`is_transfer_transaction()`; otherwise a fresh record with the two accounts
swapped, the amount negated (`amount * -1`) and every other field copied. -/
def complementary (reg : Registry) (t : Trsx) : Except String Trsx :=
  match t.dest_iban with
  | some d =>
      if containsAccount reg d then
        .ok { source_iban := d, dest_iban := some t.source_iban, type := t.type,
              date := t.date, amount := -t.amount, payee := t.payee,
              memo := t.memo, transaction_desc := t.transaction_desc }
      else .error "Complementary Trsx available only for transfer transactions"
  | none => .error "Complementary Trsx available only for transfer transactions"

/-- `nn(v) = v if v else ''` applied to the optional `payee`/`memo` fields
(`None` and `''` both render as `''`). -/
def nnOpt : Option String → String
  | none => ""
  | some s => s

/-- `qif_account_tpl.format(name=…, type=…)`. -/
def qifAccountBlock (name : String) (type : String) : String :=
  "!Account\nN" ++ name ++ "\nT" ++ type ++ "\n^"

/-- `Trsx.get_qif_tx`: renders `qif_tpl_plain_tsx`.  For transfer records a
`None` memo is replaced by `'Transfer'` and the ledger is the bracketed
display name of the counter-account (whose registry lookup cannot fail,
since `is_transfer_transaction` just checked the key; the `getD` defaults
are unreachable). -/
def get_qif_tx (reg : Registry) (t : Trsx) : String :=
  let memo0 := nnOpt t.memo
  let memo1 := if is_transfer_transaction reg t then
      (if t.memo = none then "Transfer" else memo0) else memo0
  let ledger := if is_transfer_transaction reg t then
      "[" ++ (((reg.find? (fun p => p.1 == t.dest_iban.getD "")).map Prod.snd).getD "") ++ "]"
    else ""
  "!Type:" ++ optFmt t.type ++ "\nD" ++ strftimeSlash t.date ++ "\nT" ++
    ratStr t.amount ++ "\nC\nP" ++ nnOpt t.payee ++ "\nM" ++ memo1 ++
    "\nL" ++ ledger ++ "\n^"

/-! ### Parsing one statement entry

`process_entry` receives one `Ntry` XML element.  The enclosing I/O layer is
out of scope, so we model the element by the four text values the function
reads from it: the (already `strptime`-parsed) value date, the (already
`float`-parsed) unsigned amount magnitude, the credit/debit indicator text
and the narrative (`AddtlNtryInf`). -/

structure SrcEntry where
  valDt : PyDate
  amt : ℚ
  cdtDbtInd : String
  addtlNtryInf : String
deriving DecidableEq

/-- Lines 145–147: the parsed magnitude is negated exactly when the
indicator text is `'DBIT'`. -/
def signedAmount (e : SrcEntry) : ℚ :=
  if e.cdtDbtInd == "DBIT" then -e.amt else e.amt

/-- `process_entry`: classification tries, in `_get_regex`'s dict order,
`BEA_re`, `SEPA_re`, `ABN_re`, `SPAREN_re`; the first regex whose `search`
matches selects the branch, else `ValueError`. -/
def process_entry (account_iban : String) (e : SrcEntry) : Except String Trsx :=
  let info := e.addtlNtryInf
  let il := info.toList
  let amt := signedAmount e
  match reSearchGroups BEA_regex il with
  | some caps =>
      .ok { source_iban := account_iban, dest_iban := none,
            type := some (if getGroup caps 1 = some ['B'] then "Bank" else "Cash"),
            date := e.valDt, amount := amt,
            payee := (getGroup caps 3).map String.mk,
            memo := some info, transaction_desc := info }
  | none =>
  match reSearchGroups SEPA_regex il with
  | some _ =>
      .ok { source_iban := account_iban,
            dest_iban := (find_sepa_field "IBAN".toList il).map String.mk,
            type := some "Bank", date := e.valDt, amount := amt,
            payee := (find_sepa_field "NAME".toList il).map String.mk,
            memo := (find_sepa_field "REMI".toList il).map String.mk,
            transaction_desc := info }
  | none =>
  match reSearchGroups ABN_regex il with
  | some caps =>
      .ok { source_iban := account_iban, dest_iban := none,
            type := some "Bank", date := e.valDt, amount := amt,
            payee := (getGroup caps 1).map String.mk,
            memo := (getGroup caps 2).map String.mk, transaction_desc := info }
  | none =>
  match reSearchGroups SPAREN_regex il with
  | some caps =>
      .ok { source_iban := account_iban, dest_iban := none,
            type := some "Bank", date := e.valDt, amount := amt,
            payee := some "ABN AMRO Bank N.V.",
            memo := (getGroup caps 1).map String.mk, transaction_desc := info }
  | none =>
      .error ("Transaction type not supported for \"" ++ info ++ "\"")

/-! ### The output aggregator

`QIFOutput` holds an insertion-ordered dict `accounts : iban ↦ list of
rendered blocks` (the account header block is the first element, created
lazily on first use), the Python `set` `_transaction_list` and the two
counters.  Set membership is `∃ y ∈ set, y == x` (hash buckets only narrow
the search, and records equal under `__eq__` always produce the same hash
string), so the set is modeled as the list of inserted records with
membership by `trsxEq`. -/

structure QIFState where
  accounts : List (String × List String)
  transaction_list : List Trsx
  added : Nat
  skipped : Nat
deriving DecidableEq

/-- `QIFOutput.__init__`. -/
def initState : QIFState :=
  { accounts := [], transaction_list := [], added := 0, skipped := 0 }

/-- The dict-creation half of `_get_list`: if the account has no group yet,
create it with the account header as first element — looking the display
name up in the registry, which raises `KeyError` for an unknown account. -/
def ensureAccount (reg : Registry) (m : List (String × List String)) (iban : String) :
    Except String (List (String × List String)) :=
  if m.any (fun p => p.1 == iban) then .ok m
  else
    match getAccount reg iban with
    | .ok nm => .ok (m ++ [(iban, [qifAccountBlock nm "Bank"])])
    | .error err => .error err

/-- The `.append(...)` on the list returned by `_get_list`. -/
def appendBlock (m : List (String × List String)) (iban : String) (blk : String) :
    List (String × List String) :=
  m.map (fun p => if p.1 == iban then (p.1, p.2 ++ [blk]) else p)

/-- `QIFOutput.__iadd__`: skip (counting) when an equal record was already
inserted, otherwise render the block into the source account's group,
remember the record and count it. -/
def iadd (reg : Registry) (st : QIFState) (t : Trsx) : Except String QIFState :=
  if st.transaction_list.any (fun y => trsxEq y t) then
    .ok { st with skipped := st.skipped + 1 }
  else
    match ensureAccount reg st.accounts t.source_iban with
    | .ok m =>
        .ok { accounts := appendBlock m t.source_iban (get_qif_tx reg t),
              transaction_list := t :: st.transaction_list,
              added := st.added + 1, skipped := st.skipped }
    | .error err => .error err

/-- A sequence of `out += trsx` statements. -/
def addAll (reg : Registry) : QIFState → List Trsx → Except String QIFState
  | st, [] => .ok st
  | st, t :: ts =>
      match iadd reg st t with
      | .ok st1 => addAll reg st1 ts
      | .error err => .error err

/-- `QIFOutput.__exit__` body: the document written to the output file, as
the list of printed blocks, group by group in dict (= first-encounter)
order.  Note the source ignores `exc_type` entirely: this write happens
whether or not an exception is propagating out of the `with` block. -/
def renderOut (st : QIFState) : List String :=
  (st.accounts.map Prod.snd).flatten

/-! ### The per-file driver

`_trsx_list` yields, for each entry, the parsed record and — when it is a
transfer — its complement; the `__main__` loop feeds every yielded record to
`out += …`.  Any raised error propagates immediately (stopping the run), but
the `with` block still executes `__exit__`, which writes the accumulated
blocks.  (When `iadd` raises `KeyError` the dict has already received an
empty group for the offending account; an empty group prints nothing, so
returning the pre-entry state is output-equivalent.) -/

def stepEntry (reg : Registry) (acc : String) (st : QIFState) (e : SrcEntry) :
    Except String QIFState :=
  match process_entry acc e with
  | .error msg => .error msg
  | .ok t =>
      match iadd reg st t with
      | .error msg => .error msg
      | .ok st1 =>
          if is_transfer_transaction reg t then
            match complementary reg t with
            | .error msg => .error msg
            | .ok c => iadd reg st1 c
          else .ok st1

def runEntries (reg : Registry) (acc : String) : QIFState → List SrcEntry →
    QIFState × Option String
  | st, [] => (st, none)
  | st, e :: es =>
      match stepEntry reg acc st e with
      | .ok st1 => runEntries reg acc st1 es
      | .error msg => (st, some msg)

def runFiles (reg : Registry) : QIFState → List (String × List SrcEntry) →
    QIFState × Option String
  | st, [] => (st, none)
  | st, (acc, es) :: fs =>
      match runEntries reg acc st es with
      | (st1, none) => runFiles reg st1 fs
      | (st1, some msg) => (st1, some msg)

/-- The whole `with QIFOutput(...) as out:` run over a list of statement
files: the written document (see `renderOut`) together with the propagating
error, if any. -/
def runMain (reg : Registry) (files : List (String × List SrcEntry)) :
    List String × Option String :=
  (renderOut (runFiles reg initState files).1, (runFiles reg initState files).2)

/-! ### Spec-side definitions

These definitions follow the WORDS of the specification (not the code); the
refinement theorems below compare the aggregator against them. -/

/-- Modelled from the spec, §4.2 `complement()`: "Produces a new record with
`source_account` and `counter_account` swapped, `amount` negated,
`date`/`kind`/`payee`/`memo`/`raw_narrative` copied verbatim."  (The `getD`
fallback is irrelevant: `complement()` is only specified for transfer
records, whose `counter_account` is present.) -/
def specComplement (t : Trsx) : Trsx :=
  { source_iban := t.dest_iban.getD t.source_iban, dest_iban := some t.source_iban,
    type := t.type, date := t.date, amount := -t.amount, payee := t.payee,
    memo := t.memo, transaction_desc := t.transaction_desc }

/-- The records a sequence of `add`s accepts (spec §4.4: a record is skipped
exactly when its identity was already seen among the previously accepted
records).  `seen` accumulates the accepted records. -/
def acceptedList : List Trsx → List Trsx → List Trsx
  | _, [] => []
  | seen, t :: ts =>
      if seen.any (fun y => trsxEq y t) then acceptedList seen ts
      else t :: acceptedList (t :: seen) ts

/-- First occurrence of each element, in first-encounter order. -/
def firstKeepAux : List String → List String → List String
  | _, [] => []
  | seen, a :: rest =>
      if a ∈ seen then firstKeepAux seen rest
      else a :: firstKeepAux (a :: seen) rest

/-- Modelled from the spec, §4.4 `finalize()`: "for each account group in
the order accounts were first encountered, emits an account header block
followed by all accumulated transaction blocks in insertion order" — i.e.
for each source account in first-encounter order, the header (display name
from the registry) followed by the rendered blocks of exactly the accepted
records of that account, in acceptance order. -/
def specAccountsOf (reg : Registry) (ts : List Trsx) : List (String × List String) :=
  (firstKeepAux [] (ts.map (fun t => t.source_iban))).map fun a =>
    (a, qifAccountBlock (((reg.find? (fun p => p.1 == a)).map Prod.snd).getD "") "Bank" ::
        (ts.filter (fun t => decide (t.source_iban = a))).map (get_qif_tx reg))

/-- Proof helper: the effect of a list of (already deduplicated) insertions
on the `accounts` dict alone. -/
def addAllAccounts (reg : Registry) : List (String × List String) → List Trsx →
    Except String (List (String × List String))
  | m, [] => .ok m
  | m, t :: ts =>
      match ensureAccount reg m t.source_iban with
      | .ok m1 => addAllAccounts reg (appendBlock m1 t.source_iban (get_qif_tx reg t)) ts
      | .error err => .error err

instance {ε α : Type} [DecidableEq ε] [DecidableEq α] : DecidableEq (Except ε α) := fun a b =>
  match a, b with
  | .ok x, .ok y =>
      if h : x = y then .isTrue (by rw [h]) else .isFalse (fun hh => h (Except.ok.inj hh))
  | .error x, .error y =>
      if h : x = y then .isTrue (by rw [h]) else .isFalse (fun hh => h (Except.error.inj hh))
  | .ok _, .error _ => .isFalse (fun hh => Except.noConfusion hh)
  | .error _, .ok _ => .isFalse (fun hh => Except.noConfusion hh)

/-! ### Helper lemmas -/

lemma reSearchGroups_eq_none {r : RE} {s : List Char} (h : reSearch r s = false) :
    reSearchGroups r s = none := by
  unfold reSearch at h
  cases hq : reSearchGroups r s with
  | none => rfl
  | some x => rw [hq] at h; simp at h

lemma trsxEq_refl (t : Trsx) : trsxEq t t = true := by
  simp [trsxEq]

/-- `__eq__` only looks at the seven compared fields, so it transports along
field-wise equality of those fields. -/
lemma trsxEq_congr {y t1 t2 : Trsx} (h : trsxEq y t1 = true)
    (hs : t1.source_iban = t2.source_iban) (hd : t1.dest_iban = t2.dest_iban)
    (hty : t1.type = t2.type) (hdt : t1.date = t2.date) (ha : t1.amount = t2.amount)
    (hp : t1.payee = t2.payee) (hm : t1.memo = t2.memo) : trsxEq y t2 = true := by
  simp only [trsxEq, decide_eq_true_eq] at h ⊢
  obtain ⟨e1, e2, e3, e4, e5, e6, e7⟩ := h
  exact ⟨e1.trans hs, e2.trans hd, e3.trans hty, e4.trans hdt, e5.trans ha,
    e6.trans hp, e7.trans hm⟩

/-- The duplicate branch of `__iadd__`. -/
lemma iadd_dup {reg : Registry} {st : QIFState} {t : Trsx}
    (h : st.transaction_list.any (fun y => trsxEq y t) = true) :
    iadd reg st t = .ok { st with skipped := st.skipped + 1 } := by
  simp [iadd, h]

/-- After a successful `out += t`, a record equal to `t` under `__eq__` is a
member of the set. -/
lemma iadd_mem {reg : Registry} {st st1 : QIFState} {t t2 : Trsx}
    (h : iadd reg st t = .ok st1)
    (he : trsxEq t t2 = true) :
    st1.transaction_list.any (fun y => trsxEq y t2) = true := by
  unfold iadd at h
  split at h
  · next hmem =>
      injection h with hst
      subst hst
      obtain ⟨y, hy, hey⟩ := List.any_eq_true.mp hmem
      refine List.any_eq_true.mpr ⟨y, hy, ?_⟩
      simp only [trsxEq, decide_eq_true_eq] at hey he ⊢
      obtain ⟨a1, a2, a3, a4, a5, a6, a7⟩ := hey
      obtain ⟨b1, b2, b3, b4, b5, b6, b7⟩ := he
      exact ⟨a1.trans b1, a2.trans b2, a3.trans b3, a4.trans b4, a5.trans b5,
        a6.trans b6, a7.trans b7⟩
  · next hmem =>
      split at h
      · injection h with hst
        subst hst
        exact List.any_eq_true.mpr ⟨t, List.mem_cons_self _ _, he⟩
      · exact absurd h (by simp)

/-! ### Concrete inputs used by witnesses and counterexamples -/

def reg2 : Registry := [("A", "a"), ("B", "b")]

def regB : Registry := [("B", "b")]

def tAB : Trsx :=
  { source_iban := "A", dest_iban := some "B", type := some "Bank",
    date := ⟨2024, 1, 2⟩, amount := 5, payee := none, memo := none,
    transaction_desc := "n" }

def cAB : Trsx :=
  { source_iban := "B", dest_iban := some "A", type := some "Bank",
    date := ⟨2024, 1, 2⟩, amount := -5, payee := none, memo := none,
    transaction_desc := "n" }

def eSep : SrcEntry :=
  { valDt := ⟨2024, 1, 2⟩, amt := 5, cdtDbtInd := "DBIT", addtlNtryInf := "/TRTP/x" }

def tSep : Trsx :=
  { source_iban := "A", dest_iban := none, type := some "Bank",
    date := ⟨2024, 1, 2⟩, amount := -5, payee := none, memo := none,
    transaction_desc := "/TRTP/x" }

def eZzz : SrcEntry :=
  { valDt := ⟨2024, 1, 3⟩, amt := 7, cdtDbtInd := "CRDT", addtlNtryInf := "zzz" }

/-! ### Claim C5 -/

/-- C5: whenever the narrative of a source entry matches none of the four
classification grammars (BEA cash/card, SEPA structured transfer, ABN
institution notice, SPAREN balanced interest), `process_entry` raises the
`ValueError` — it never returns a record, so no narrative is silently
skipped. -/
theorem process_entry_unmatched_errors (acc : String) (e : SrcEntry)
    (h1 : reSearch BEA_regex e.addtlNtryInf.toList = false)
    (h2 : reSearch SEPA_regex e.addtlNtryInf.toList = false)
    (h3 : reSearch ABN_regex e.addtlNtryInf.toList = false)
    (h4 : reSearch SPAREN_regex e.addtlNtryInf.toList = false) :
    process_entry acc e =
      .error ("Transaction type not supported for \"" ++ e.addtlNtryInf ++ "\"") := by
  simp only [process_entry, reSearchGroups_eq_none h1, reSearchGroups_eq_none h2,
    reSearchGroups_eq_none h3, reSearchGroups_eq_none h4]

theorem process_entry_unmatched_errors_witness :
    reSearch BEA_regex "zzz".toList = false ∧ reSearch SEPA_regex "zzz".toList = false ∧
    reSearch ABN_regex "zzz".toList = false ∧ reSearch SPAREN_regex "zzz".toList = false ∧
    process_entry "A" eZzz = .error "Transaction type not supported for \"zzz\"" := by
  refine ⟨by decide, by decide, by decide, by decide, ?_⟩
  exact process_entry_unmatched_errors "A" eZzz (by decide) (by decide) (by decide) (by decide)

/-! ### Claim C6 -/

/-- C6: every record returned by `process_entry` carries the sign-adjusted
amount: the parsed magnitude negated exactly when the `CdtDbtInd` text is
`DBIT` (so a positive debit magnitude yields a negative amount), and the
unmodified magnitude otherwise. -/
theorem process_entry_amount_sign (acc : String) (e : SrcEntry) (t : Trsx)
    (h : process_entry acc e = .ok t) :
    t.amount = signedAmount e ∧
    (e.cdtDbtInd = "DBIT" → t.amount = -e.amt) ∧
    (e.cdtDbtInd ≠ "DBIT" → t.amount = e.amt) ∧
    (e.cdtDbtInd = "DBIT" → 0 < e.amt → t.amount < 0) ∧
    (e.cdtDbtInd ≠ "DBIT" → 0 < e.amt → 0 < t.amount) := by
  have hA : t.amount = signedAmount e := by
    simp only [process_entry] at h
    repeat' split at h
    all_goals first
      | (injection h with h2; subst h2; rfl)
      | (exact absurd h (by simp))
  have hD : ∀ hd : e.cdtDbtInd = "DBIT", t.amount = -e.amt := by
    intro hd
    rw [hA]; simp [signedAmount, hd]
  have hN : ∀ _ : e.cdtDbtInd ≠ "DBIT", t.amount = e.amt := by
    intro hd
    rw [hA]; simp [signedAmount, hd]
  exact ⟨hA, hD, hN,
    fun hd hp => by rw [hD hd]; exact neg_lt_zero.mpr hp,
    fun hd hp => by rw [hN hd]; exact hp⟩

theorem process_entry_amount_sign_witness :
    process_entry "A" eSep = .ok tSep ∧ tSep.amount = signedAmount eSep :=
  ⟨by decide, (process_entry_amount_sign "A" eSep tSep (by decide)).1⟩

/-! ### Claim C7 -/

/-- The successful branch of `complementary`, in terms of the spec-side
`specComplement`. -/
lemma complementary_of_transfer (reg : Registry) (t : Trsx)
    (ht : is_transfer_transaction reg t = true) :
    complementary reg t = .ok (specComplement t) := by
  unfold is_transfer_transaction at ht
  cases hd : t.dest_iban with
  | none => rw [hd] at ht; simp at ht
  | some d =>
      rw [hd] at ht
      have ht2 : containsAccount reg d = true := ht
      unfold complementary
      rw [hd]
      simp [ht2, specComplement, hd]

/-- The raising branch of `complementary`. -/
lemma complementary_of_non_transfer (reg : Registry) (t : Trsx)
    (ht : is_transfer_transaction reg t = false) :
    complementary reg t =
      .error "Complementary Trsx available only for transfer transactions" := by
  unfold is_transfer_transaction at ht
  cases hd : t.dest_iban with
  | none => unfold complementary; rw [hd]
  | some d =>
      rw [hd] at ht
      have ht2 : containsAccount reg d = false := ht
      unfold complementary
      rw [hd]
      simp [ht2]

/-- C7: on a transfer record, `complementary` returns exactly the record the
spec describes — accounts swapped, amount negated, `date`/`type`/`payee`/
`memo`/`transaction_desc` copied verbatim (`specComplement`); on a
non-transfer record it raises the `ValueError` instead of returning a
record. -/
theorem complementary_field_spec (reg : Registry) (t : Trsx) :
    (is_transfer_transaction reg t = true →
      complementary reg t = .ok (specComplement t)) ∧
    (is_transfer_transaction reg t = false →
      complementary reg t =
        .error "Complementary Trsx available only for transfer transactions") :=
  ⟨complementary_of_transfer reg t, complementary_of_non_transfer reg t⟩

theorem complementary_field_spec_witness :
    complementary reg2 tAB = .ok (specComplement tAB) ∧
    complementary [] tAB =
      .error "Complementary Trsx available only for transfer transactions" :=
  ⟨(complementary_field_spec reg2 tAB).1 (by decide),
    (complementary_field_spec [] tAB).2 (by decide)⟩

/-! ### Claim C3 -/

/-- C3 (amended): the claimed involution laws hold only when, in addition to
`t.is_transfer_transaction()`, the SOURCE account of `t` is itself registered
— then the complement is again a transfer, its amount is the negation, and
complementing twice returns a record equal to `t` under `__eq__` (which
ignores `transaction_desc`). -/
theorem complement_involution_amended (reg : Registry) (t c : Trsx)
    (ht : is_transfer_transaction reg t = true)
    (hs : containsAccount reg t.source_iban = true)
    (hc : complementary reg t = .ok c) :
    is_transfer_transaction reg c = true ∧ c.amount = -t.amount ∧
    (complementary reg c).map (fun c2 => trsxEq c2 t) = .ok true := by
  rw [complementary_of_transfer reg t ht] at hc
  injection hc with hc2
  subst hc2
  have hft : is_transfer_transaction reg (specComplement t) = true := by
    simp [is_transfer_transaction, specComplement, hs]
  refine ⟨hft, rfl, ?_⟩
  rw [complementary_of_transfer reg _ hft]
  cases hd : t.dest_iban with
  | none => unfold is_transfer_transaction at ht; rw [hd] at ht; simp at ht
  | some d =>
      simp [Except.map, specComplement, trsxEq, hd, neg_neg]

theorem complement_involution_amended_witness :
    is_transfer_transaction reg2 tAB = true ∧
    containsAccount reg2 tAB.source_iban = true ∧
    (is_transfer_transaction reg2 cAB = true ∧ cAB.amount = -tAB.amount ∧
      (complementary reg2 cAB).map (fun c2 => trsxEq c2 tAB) = .ok true) :=
  ⟨by decide, by decide,
    complement_involution_amended reg2 tAB cAB (by decide) (by decide) (by decide)⟩

/-- C3 counterexample: with registry `{B}` and a transfer from the
unregistered account `A` to `B`, `t.is_transfer_transaction()` holds but the
complement is NOT a transfer (its counter-account `A` is not registered), so
the claim as stated — for an arbitrary registry — is false; in particular
`complement().complement()` raises instead of returning `t`. -/
theorem complement_involution_counterexample :
    is_transfer_transaction regB tAB = true ∧
    (complementary regB tAB).map (fun c => is_transfer_transaction regB c) =
      .ok false := by
  exact ⟨by decide, by decide⟩

/-! ### Claims C1 and C8 -/

def regA : Registry := [("A", "Alice")]

def tW1 : Trsx :=
  { source_iban := "A", dest_iban := none, type := some "Bank",
    date := ⟨2024, 1, 2⟩, amount := -12, payee := some "Bob", memo := some "x",
    transaction_desc := "raw one" }

def tW2 : Trsx :=
  { source_iban := "A", dest_iban := none, type := some "Bank",
    date := ⟨2024, 1, 2⟩, amount := -12, payee := some "Bob", memo := some "x",
    transaction_desc := "raw two" }

def stW1 : QIFState :=
  { accounts := [("A", ["!Account\nNAlice\nTBank\n^",
      "!Type:Bank\nD2024/01/02\nT-12.0\nC\nPBob\nMx\nL\n^"])],
    transaction_list := [tW1], added := 1, skipped := 0 }

/-- C1 (amended): a second record is treated as a duplicate — skipped, not
inserted — when it agrees with an already-added record on the fingerprint
fields (`source_account`, `counter_account`, `date`, `amount`, `memo`) AND
also on `kind` and `payee`: membership in the Python `set` requires full
`__eq__`, not just an equal hash fingerprint. -/
theorem dedup_requires_full_record_equality (reg : Registry) (st st1 : QIFState)
    (t1 t2 : Trsx)
    (hs : t1.source_iban = t2.source_iban) (hd : t1.dest_iban = t2.dest_iban)
    (hdt : t1.date = t2.date) (ha : t1.amount = t2.amount) (hm : t1.memo = t2.memo)
    (hk : t1.type = t2.type) (hp : t1.payee = t2.payee)
    (h : iadd reg st t1 = .ok st1) :
    iadd reg st1 t2 = .ok { st1 with skipped := st1.skipped + 1 } := by
  have he : trsxEq t1 t2 = true := by
    simp [trsxEq, hs, hd, hk, hdt, ha, hp, hm]
  exact iadd_dup (iadd_mem h he)

theorem dedup_requires_full_record_equality_witness :
    iadd regA initState tW1 = .ok stW1 ∧
    iadd regA stW1 tW2 = .ok { stW1 with skipped := stW1.skipped + 1 } :=
  ⟨by decide,
    dedup_requires_full_record_equality regA initState stW1 tW1 tW2
      rfl rfl rfl rfl rfl rfl rfl (by decide)⟩

def tP1 : Trsx :=
  { source_iban := "A", dest_iban := none, type := some "Bank",
    date := ⟨2024, 1, 2⟩, amount := -12, payee := some "P1", memo := some "x",
    transaction_desc := "r" }

def tP2 : Trsx :=
  { source_iban := "A", dest_iban := none, type := some "Bank",
    date := ⟨2024, 1, 2⟩, amount := -12, payee := some "P2", memo := some "x",
    transaction_desc := "r" }

/-- C1 counterexample: `tP1` and `tP2` agree on all five fingerprint fields
(indeed their fingerprint strings are equal) and differ only in `payee`, yet
the second add is NOT skipped: both are inserted (`added = 2`,
`skipped = 0`, header plus two blocks in the output), because set membership
uses `__eq__`, which also compares `kind` and `payee`. -/
theorem dedup_fingerprint_only_counterexample :
    fingerprint tP1 = fingerprint tP2 ∧ trsxEq tP1 tP2 = false ∧
    (addAll regA initState [tP1, tP2]).map
      (fun st => (st.added, st.skipped, (renderOut st).length)) = .ok (2, 0, 3) :=
  ⟨by decide, by decide, by decide⟩

def stW2 : QIFState :=
  { accounts := [("A", ["!Account\nNAlice\nTBank\n^",
      "!Type:Bank\nD2024/01/02\nT5.0\nC\nP\nM\nL\n^"])],
    transaction_list := [tAB], added := 1, skipped := 0 }

/-- C8: re-adding a record after a successful add takes the duplicate
branch: the resulting state is the previous state with `skipped` incremented
by exactly one — `added`, the per-account block sequences and the
fingerprint set are all unchanged. -/
theorem second_add_bumps_only_skipped (reg : Registry) (st st1 : QIFState) (t : Trsx)
    (h : iadd reg st t = .ok st1) :
    iadd reg st1 t = .ok { st1 with skipped := st1.skipped + 1 } :=
  iadd_dup (iadd_mem h (trsxEq_refl t))

theorem second_add_bumps_only_skipped_witness :
    iadd regA initState tAB = .ok stW2 ∧
    iadd regA stW2 tAB = .ok { stW2 with skipped := stW2.skipped + 1 } :=
  ⟨by decide, second_add_bumps_only_skipped regA initState stW2 tAB (by decide)⟩

/-! ### Claim C2 -/

/-- A successful prefix of entries composes with whatever follows. -/
lemma runEntries_ok_append (reg : Registry) (acc : String) (es1 : List SrcEntry)
    (st st1 : QIFState) (es2 : List SrcEntry)
    (h : runEntries reg acc st es1 = (st1, none)) :
    runEntries reg acc st (es1 ++ es2) = runEntries reg acc st1 es2 := by
  induction es1 generalizing st with
  | nil =>
      have h1 : st = st1 := congrArg Prod.fst h
      rw [List.nil_append, h1]
  | cons e es ih =>
      rw [List.cons_append]
      cases hs : stepEntry reg acc st e with
      | ok st2 =>
          simp only [runEntries, hs] at h
          have hstep : runEntries reg acc st (e :: (es ++ es2)) =
              runEntries reg acc st2 (es ++ es2) := by
            simp only [runEntries, hs]
          rw [hstep]
          exact ih st2 h
      | error msg =>
          simp only [runEntries, hs] at h
          exact absurd (congrArg Prod.snd h) (by simp)

/-- C2 (amended): when processing fails partway through a run, the output
document is NOT empty — `__exit__` ignores the exception and still writes
every account header and transaction block accepted before the failure
(exactly `renderOut` of the state reached so far). -/
theorem failed_run_writes_partial_output (reg : Registry) (acc : String)
    (es1 : List SrcEntry) (e : SrcEntry) (es2 : List SrcEntry) (st : QIFState)
    (msg : String)
    (h1 : runEntries reg acc initState es1 = (st, none))
    (h2 : stepEntry reg acc st e = .error msg) :
    runMain reg [(acc, es1 ++ e :: es2)] = (renderOut st, some msg) := by
  have hr : runFiles reg initState [(acc, es1 ++ e :: es2)] = (st, some msg) := by
    unfold runFiles
    rw [runEntries_ok_append reg acc es1 initState st (e :: es2) h1]
    unfold runEntries
    simp only [h2]
  unfold runMain
  rw [hr]

def stSep : QIFState :=
  { accounts := [("A", ["!Account\nNAlice\nTBank\n^",
      "!Type:Bank\nD2024/01/02\nT-5.0\nC\nP\nM\nL\n^"])],
    transaction_list := [tSep], added := 1, skipped := 0 }

theorem failed_run_writes_partial_output_witness :
    runEntries regA "A" initState [eSep] = (stSep, none) ∧
    stepEntry regA "A" stSep eZzz = .error "Transaction type not supported for \"zzz\"" ∧
    runMain regA [("A", [eSep, eZzz])] =
      (renderOut stSep, some "Transaction type not supported for \"zzz\"") := by
  refine ⟨by decide, by decide, ?_⟩
  exact failed_run_writes_partial_output regA "A" [eSep] eZzz [] stSep _ (by decide) (by decide)

/-- C2 counterexample: a run over one statement whose first entry is
accepted and whose second entry fails classification propagates the error,
yet the written document contains the account header and the accepted
block — it is not empty, contradicting "the output document contains
nothing". -/
theorem failed_run_empty_output_counterexample :
    (runMain regA [("A", [eSep, eZzz])]).2 =
      some "Transaction type not supported for \"zzz\"" ∧
    (runMain regA [("A", [eSep, eZzz])]).1 =
      ["!Account\nNAlice\nTBank\n^", "!Type:Bank\nD2024/01/02\nT-5.0\nC\nP\nM\nL\n^"] ∧
    (runMain regA [("A", [eSep, eZzz])]).1 ≠ [] :=
  ⟨by decide, by decide, by decide⟩

/-! ### Claims C4 and C10 -/

/-- Spec-side condition: some occurrence of the requested tag's delimiter is
followed, later in the delimiter sequence, by a delimiter of a different
tag.  This is exactly when the scan loop of `find_sepa_field` returns a
value. -/
def tagFollowedByOther (f : List Char) : List Marker → Bool
  | [] => false
  | m :: rest =>
      if m.tag = f then rest.any (fun y => decide (y.tag ≠ f))
      else tagFollowedByOther f rest

lemma sepaLoop_isSome_acc (f info : List Char) :
    ∀ (l : List Marker) (st : Nat),
      (sepaLoop f info l (some st)).isSome = l.any (fun y => decide (y.tag ≠ f))
  | [], st => by simp [sepaLoop]
  | m :: rest, st => by
      unfold sepaLoop
      by_cases hm : m.tag = f
      · rw [if_pos hm]
        rw [sepaLoop_isSome_acc f info rest m.mend]
        simp [hm]
      · rw [if_neg hm]
        simp [hm]

lemma sepaLoop_isSome_none (f info : List Char) :
    ∀ l : List Marker,
      (sepaLoop f info l none).isSome = tagFollowedByOther f l
  | [] => by simp [sepaLoop, tagFollowedByOther]
  | m :: rest => by
      unfold sepaLoop tagFollowedByOther
      by_cases hm : m.tag = f
      · rw [if_pos hm, if_pos hm]
        exact sepaLoop_isSome_acc f info rest m.mend
      · rw [if_neg hm, if_neg hm]
        exact sepaLoop_isSome_none f info rest

lemma sepaLoop_some_acc (f info : List Char) :
    ∀ (l : List Marker) (st : Nat) (v : List Char),
      sepaLoop f info l (some st) = some v →
      (∃ y ∈ l, y.tag ≠ f ∧ v = pySlice info st y.mstart) ∨
      (∃ x y : Marker, List.Sublist [x, y] l ∧ x.tag = f ∧ y.tag ≠ f ∧
        v = pySlice info x.mend y.mstart)
  | [], st, v => by intro h; exact absurd h (by simp [sepaLoop])
  | m :: rest, st, v => by
      intro h
      unfold sepaLoop at h
      by_cases hm : m.tag = f
      · rw [if_pos hm] at h
        rcases sepaLoop_some_acc f info rest m.mend v h with ⟨y, hy, hyt, hv⟩ | ⟨x, y, hxy, hxt, hyt, hv⟩
        · exact Or.inr ⟨m, y, List.Sublist.cons₂ m (List.singleton_sublist.mpr hy), hm, hyt, hv⟩
        · exact Or.inr ⟨x, y, hxy.cons m, hxt, hyt, hv⟩
      · rw [if_neg hm] at h
        injection h with hv
        exact Or.inl ⟨m, List.mem_cons_self m rest, hm, hv.symm⟩

lemma sepaLoop_some_none (f info : List Char) :
    ∀ (l : List Marker) (v : List Char),
      sepaLoop f info l none = some v →
      ∃ x y : Marker, List.Sublist [x, y] l ∧ x.tag = f ∧ y.tag ≠ f ∧
        v = pySlice info x.mend y.mstart
  | [], v => by intro h; exact absurd h (by simp [sepaLoop])
  | m :: rest, v => by
      intro h
      unfold sepaLoop at h
      by_cases hm : m.tag = f
      · rw [if_pos hm] at h
        rcases sepaLoop_some_acc f info rest m.mend v h with ⟨y, hy, hyt, hv⟩ | ⟨x, y, hxy, hxt, hyt, hv⟩
        · exact ⟨m, y, List.Sublist.cons₂ m (List.singleton_sublist.mpr hy), hm, hyt, hv⟩
        · exact ⟨x, y, hxy.cons m, hxt, hyt, hv⟩
      · rw [if_neg hm] at h
        obtain ⟨x, y, hxy, hxt, hyt, hv⟩ := sepaLoop_some_none f info rest v h
        exact ⟨x, y, hxy.cons m, hxt, hyt, hv⟩

lemma find_sepa_field_eq_loop (f info : List Char)
    (hsepa : reSearch SEPA_regex info = true) :
    find_sepa_field f info = sepaLoop f info (findMarkers info) none := by
  unfold find_sepa_field
  simp [hsepa]

/-- C4 (amended): on a narrative matching the structured-transfer trigger,
`find_sepa_field` is absent exactly when no occurrence of the requested
tag's delimiter is followed by a later delimiter of a DIFFERENT tag (so: it
is absent when the tag never occurs, but ALSO when the tag's delimiter is
never followed by another tag's delimiter); whenever a value is returned it
is the substring between the end of an occurrence of the requested tag's
delimiter and the start of a later different-tag delimiter. -/
theorem find_sepa_field_characterization (f info : List Char)
    (hsepa : reSearch SEPA_regex info = true) :
    (find_sepa_field f info = none ↔
      tagFollowedByOther f (findMarkers info) = false) ∧
    (∀ v, find_sepa_field f info = some v →
      ∃ x y : Marker, List.Sublist [x, y] (findMarkers info) ∧ x.tag = f ∧
        y.tag ≠ f ∧ v = pySlice info x.mend y.mstart) := by
  constructor
  · rw [find_sepa_field_eq_loop f info hsepa,
      ← sepaLoop_isSome_none f info (findMarkers info)]
    cases sepaLoop f info (findMarkers info) none <;> simp
  · intro v hv
    rw [find_sepa_field_eq_loop f info hsepa] at hv
    exact sepaLoop_some_none f info (findMarkers info) v hv

def infoC4 : List Char := "/TRTP/SEPA/IBAN/NL00BANK".toList

/-- C4 counterexample: in `/TRTP/SEPA/IBAN/NL00BANK` the tag `IBAN` occurs
(as a delimiter) yet `find_sepa_field('IBAN')` returns `None`, because no
further delimiter follows — contradicting "the result is absent exactly when
the tag never occurs (whenever the tag occurs, a value is returned)". -/
theorem find_sepa_field_occurrence_without_value :
    (findMarkers infoC4).any (fun m => decide (m.tag = "IBAN".toList)) = true ∧
    find_sepa_field "IBAN".toList infoC4 = none :=
  ⟨by decide, by decide⟩

theorem find_sepa_field_characterization_witness :
    reSearch SEPA_regex infoC4 = true ∧
    (find_sepa_field "IBAN".toList infoC4 = none ↔
      tagFollowedByOther "IBAN".toList (findMarkers infoC4) = false) :=
  ⟨by decide, (find_sepa_field_characterization "IBAN".toList infoC4 (by decide)).1⟩

lemma sepaLoop_cons (f info : List Char) (m : Marker) (rest : List Marker)
    (acc : Option Nat) :
    sepaLoop f info (m :: rest) acc =
      if m.tag = f then sepaLoop f info rest (some m.mend)
      else
        match acc with
        | some st => some (pySlice info st m.mstart)
        | none => sepaLoop f info rest none := rfl

lemma sepaLoop_cons_ne_none (f info : List Char) (m : Marker) (rest : List Marker)
    (hm : ¬ m.tag = f) :
    sepaLoop f info (m :: rest) none = sepaLoop f info rest none := by
  rw [sepaLoop_cons, if_neg hm]

lemma sepaLoop_cons_run (f info : List Char) (m : Marker) (rest : List Marker)
    (acc : Option Nat) (hm : m.tag = f) :
    sepaLoop f info (m :: rest) acc = sepaLoop f info rest (some m.mend) := by
  rw [sepaLoop_cons, if_pos hm]

lemma sepaLoop_skip_pre (f info : List Char) :
    ∀ (pre l : List Marker), (∀ x ∈ pre, x.tag ≠ f) →
      sepaLoop f info (pre ++ l) none = sepaLoop f info l none
  | [], l, _ => rfl
  | p :: pre, l, hpre => by
      rw [List.cons_append, sepaLoop_cons_ne_none f info p (pre ++ l)
        (hpre p (List.mem_cons_self p pre))]
      exact sepaLoop_skip_pre f info pre l (fun x hx => hpre x (List.mem_cons_of_mem p hx))

lemma sepaLoop_consume_run (f info : List Char) :
    ∀ (run tail : List Marker) (acc : Option Nat) (lr : Marker),
      (∀ x ∈ run, x.tag = f) → run.getLast? = some lr →
      sepaLoop f info (run ++ tail) acc = sepaLoop f info tail (some lr.mend)
  | [], tail, acc, lr, _, hlr => by exact absurd hlr (by simp)
  | r :: run, tail, acc, lr, hrun, hlr => by
      rw [List.cons_append, sepaLoop_cons_run f info r (run ++ tail) acc
        (hrun r (List.mem_cons_self r run))]
      cases run with
      | nil =>
          have hr : r = lr := by simpa using hlr
          rw [List.nil_append, hr]
      | cons r2 run2 =>
          have hlr2 := hlr
          rw [List.getLast?_cons_cons] at hlr2
          exact sepaLoop_consume_run f info (r2 :: run2) tail (some r.mend) lr
            (fun x hx => hrun x (List.mem_cons_of_mem r hx)) hlr2

/-- C10 (amended): on a narrative matching the structured-transfer trigger
(`/TRTP/` present), when the delimiter sequence decomposes as: some
delimiters of other tags, then a non-empty consecutive run of the requested
tag's delimiters, then a delimiter of a different tag — extraction returns
the value following the LAST occurrence in that initial consecutive run,
i.e. the substring between that occurrence's end and the next delimiter's
start.  (The claim's example narratives lack the `/TRTP/` trigger, on which
extraction returns no value at all; see the counterexample.) -/
theorem find_sepa_field_repeated_tag (info f : List Char)
    (pre run rest : List Marker) (m lr : Marker)
    (hsepa : reSearch SEPA_regex info = true)
    (hms : findMarkers info = pre ++ run ++ m :: rest)
    (hpre : ∀ x ∈ pre, x.tag ≠ f)
    (hrun : ∀ x ∈ run, x.tag = f)
    (hlr : run.getLast? = some lr)
    (hm : m.tag ≠ f) :
    find_sepa_field f info = some (pySlice info lr.mend m.mstart) := by
  rw [find_sepa_field_eq_loop f info hsepa, hms, List.append_assoc,
    sepaLoop_skip_pre f info pre _ hpre,
    sepaLoop_consume_run f info run (m :: rest) none lr hrun hlr,
    sepaLoop_cons, if_neg hm]

theorem find_sepa_field_repeated_tag_witness :
    find_sepa_field "REMI".toList "/TRTP/SEPA/REMI/a/REMI/b/IBAN/x".toList = some ['b'] ∧
    find_sepa_field "REMI".toList "/TRTP/SEPA/REMI/a/IBAN/x/REMI/b/EREF/y".toList =
      some ['a'] := by
  constructor
  · have h := find_sepa_field_repeated_tag "/TRTP/SEPA/REMI/a/REMI/b/IBAN/x".toList
      "REMI".toList [⟨"TRTP".toList, 0, 6⟩]
      [⟨"REMI".toList, 10, 16⟩, ⟨"REMI".toList, 17, 23⟩] []
      ⟨"IBAN".toList, 24, 30⟩ ⟨"REMI".toList, 17, 23⟩
      (by decide) (by decide) (by decide) (by decide) (by decide) (by decide)
    rw [h]; decide
  · have h := find_sepa_field_repeated_tag "/TRTP/SEPA/REMI/a/IBAN/x/REMI/b/EREF/y".toList
      "REMI".toList [⟨"TRTP".toList, 0, 6⟩] [⟨"REMI".toList, 10, 16⟩]
      [⟨"REMI".toList, 24, 30⟩, ⟨"EREF".toList, 31, 37⟩]
      ⟨"IBAN".toList, 17, 23⟩ ⟨"REMI".toList, 10, 16⟩
      (by decide) (by decide) (by decide) (by decide) (by decide) (by decide)
    rw [h]; decide

/-- C10 counterexample: the claim's own example inputs contain no `/TRTP/`
trigger, so `SEPA_re.search` fails inside `find_sepa_field` and extraction
returns `None` on them — not `'b'` (resp. `'a'`) as claimed. -/
theorem find_sepa_field_no_trigger_counterexample :
    find_sepa_field "REMI".toList "/REMI/a/REMI/b/IBAN/x".toList = none ∧
    find_sepa_field "REMI".toList "/REMI/a/IBAN/x/REMI/b/EREF/y".toList = none :=
  ⟨by decide, by decide⟩

/-! ### Claim C9 -/

/-- The `accounts` dict after a successful sequence of adds is the fold of
the accepted (non-duplicate) records' insertions over the initial dict. -/
lemma addAll_accounts (reg : Registry) :
    ∀ (ts : List Trsx) (st st1 : QIFState),
      addAll reg st ts = .ok st1 →
      addAllAccounts reg st.accounts (acceptedList st.transaction_list ts) =
        .ok st1.accounts
  | [], st, st1, h => by
      have h1 : st = st1 := Except.ok.inj h
      subst h1
      rfl
  | t :: ts, st, st1, h => by
      by_cases hmem : st.transaction_list.any (fun y => trsxEq y t) = true
      · have hia : iadd reg st t = .ok { st with skipped := st.skipped + 1 } :=
          iadd_dup hmem
        simp only [addAll, hia] at h
        simp only [acceptedList, hmem, if_true]
        exact addAll_accounts reg ts { st with skipped := st.skipped + 1 } st1 h
      · have hmf : st.transaction_list.any (fun y => trsxEq y t) = false := by
          simpa using hmem
        cases he : ensureAccount reg st.accounts t.source_iban with
        | error err =>
            have hia : iadd reg st t = .error err := by
              unfold iadd
              rw [if_neg hmem, he]
            simp only [addAll, hia] at h
            exact absurd h (by simp)
        | ok m =>
            have hia : iadd reg st t =
                .ok { accounts := appendBlock m t.source_iban (get_qif_tx reg t),
                      transaction_list := t :: st.transaction_list,
                      added := st.added + 1, skipped := st.skipped } := by
              unfold iadd
              rw [if_neg hmem, he]
            simp only [addAll, hia] at h
            simp only [acceptedList, hmf, if_false, Bool.false_eq_true]
            simp only [addAllAccounts, he]
            exact addAll_accounts reg ts
              { accounts := appendBlock m t.source_iban (get_qif_tx reg t),
                transaction_list := t :: st.transaction_list,
                added := st.added + 1, skipped := st.skipped } st1 h

lemma firstKeepAux_cons (seen : List String) (a : String) (rest : List String) :
    firstKeepAux seen (a :: rest) =
      if a ∈ seen then firstKeepAux seen rest
      else a :: firstKeepAux (a :: seen) rest := rfl

lemma firstKeepAux_mem :
    ∀ (l seen : List String) (a : String), a ∈ firstKeepAux seen l → a ∈ l ∧ a ∉ seen
  | [], _, a, h => absurd h (by simp [firstKeepAux])
  | b :: l, seen, a, h => by
      rw [firstKeepAux_cons] at h
      by_cases hb : b ∈ seen
      · rw [if_pos hb] at h
        obtain ⟨h1, h2⟩ := firstKeepAux_mem l seen a h
        exact ⟨List.mem_cons_of_mem b h1, h2⟩
      · rw [if_neg hb] at h
        rcases List.mem_cons.mp h with rfl | h2
        · exact ⟨List.mem_cons_self a l, hb⟩
        · obtain ⟨h1, h3⟩ := firstKeepAux_mem l (b :: seen) a h2
          exact ⟨List.mem_cons_of_mem b h1, fun hs => h3 (List.mem_cons_of_mem b hs)⟩

lemma firstKeepAux_congr :
    ∀ (l seen1 seen2 : List String), (∀ a, a ∈ seen1 ↔ a ∈ seen2) →
      firstKeepAux seen1 l = firstKeepAux seen2 l
  | [], _, _, _ => rfl
  | b :: l, seen1, seen2, hiff => by
      rw [firstKeepAux_cons, firstKeepAux_cons]
      by_cases hb : b ∈ seen1
      · rw [if_pos hb, if_pos ((hiff b).mp hb)]
        exact firstKeepAux_congr l seen1 seen2 hiff
      · rw [if_neg hb, if_neg (fun hh => hb ((hiff b).mpr hh))]
        rw [firstKeepAux_congr l (b :: seen1) (b :: seen2) (fun a => by simp [hiff a])]

lemma firstKeepAux_cons_seen :
    ∀ (l : List String) (s : String) (seen : List String),
      firstKeepAux (s :: seen) l = firstKeepAux seen (l.filter (fun a => decide (a ≠ s)))
  | [], _, _ => rfl
  | b :: l, s, seen => by
      by_cases hb : b = s
      · subst hb
        rw [firstKeepAux_cons, if_pos (List.mem_cons_self b seen)]
        have hf : (b :: l).filter (fun a => decide (a ≠ b)) =
            l.filter (fun a => decide (a ≠ b)) := by simp
        rw [hf]
        exact firstKeepAux_cons_seen l b seen
      · have hf : (b :: l).filter (fun a => decide (a ≠ s)) =
            b :: l.filter (fun a => decide (a ≠ s)) := by simp [hb]
        rw [hf, firstKeepAux_cons, firstKeepAux_cons]
        by_cases hc : b ∈ seen
        · rw [if_pos (List.mem_cons_of_mem s hc), if_pos hc]
          exact firstKeepAux_cons_seen l s seen
        · have hbs : b ∉ s :: seen := by simp [hb, hc]
          rw [if_neg hbs, if_neg hc]
          rw [firstKeepAux_congr l (b :: s :: seen) (s :: b :: seen)
            (fun a => by constructor <;> (intro hx; simp at hx ⊢; tauto))]
          rw [firstKeepAux_cons_seen l s (b :: seen)]

lemma map_src_filter_comm :
    ∀ (l : List Trsx) (p : String → Bool),
      (l.map (fun t => t.source_iban)).filter p =
        (l.filter (fun t => p t.source_iban)).map (fun t => t.source_iban)
  | [], _ => rfl
  | t :: l, p => by
      simp only [List.map_cons, List.filter_cons]
      cases hp : p t.source_iban <;>
        simp [hp, map_src_filter_comm l p]

lemma filter_ne_then_eq :
    ∀ (l : List Trsx) (a s : String), a ≠ s →
      (l.filter (fun x => decide (x.source_iban ≠ s))).filter
          (fun x => decide (x.source_iban = a)) =
        l.filter (fun x => decide (x.source_iban = a))
  | [], _, _, _ => rfl
  | x :: l, a, s, h => by
      have rec := filter_ne_then_eq l a s h
      by_cases hxs : x.source_iban = s
      · have e1 : ¬ (fun x : Trsx => decide (x.source_iban ≠ s)) x = true := by simp [hxs]
        have e2 : ¬ (fun x : Trsx => decide (x.source_iban = a)) x = true := by
          simp only [decide_eq_true_eq, hxs]
          exact fun hh => h hh.symm
        rw [@List.filter_cons_of_neg Trsx (fun x => decide (x.source_iban ≠ s)) x l e1,
          @List.filter_cons_of_neg Trsx (fun x => decide (x.source_iban = a)) x l e2]
        exact rec
      · have e1 : (fun x : Trsx => decide (x.source_iban ≠ s)) x = true := by simp [hxs]
        rw [@List.filter_cons_of_pos Trsx (fun x => decide (x.source_iban ≠ s)) x l e1]
        by_cases hxa : x.source_iban = a
        · have e2 : (fun x : Trsx => decide (x.source_iban = a)) x = true := by simp [hxa]
          rw [@List.filter_cons_of_pos Trsx (fun x => decide (x.source_iban = a)) x _ e2,
            @List.filter_cons_of_pos Trsx (fun x => decide (x.source_iban = a)) x l e2, rec]
        · have e2 : ¬ (fun x : Trsx => decide (x.source_iban = a)) x = true := by simp [hxa]
          rw [@List.filter_cons_of_neg Trsx (fun x => decide (x.source_iban = a)) x _ e2,
            @List.filter_cons_of_neg Trsx (fun x => decide (x.source_iban = a)) x l e2, rec]

/-- Decomposition of the spec-side grouping at its first record. -/
lemma specAccountsOf_cons (reg : Registry) (t : Trsx) (l : List Trsx) :
    specAccountsOf reg (t :: l) =
      (t.source_iban,
        qifAccountBlock
            (((reg.find? (fun p => p.1 == t.source_iban)).map Prod.snd).getD "") "Bank" ::
          get_qif_tx reg t ::
          ((l.filter (fun x => decide (x.source_iban = t.source_iban))).map
            (get_qif_tx reg))) ::
      specAccountsOf reg (l.filter (fun x => decide (x.source_iban ≠ t.source_iban))) := by
  unfold specAccountsOf
  rw [List.map_cons, firstKeepAux_cons, if_neg (List.not_mem_nil _), List.map_cons]
  congr 1
  · simp
  · rw [firstKeepAux_cons_seen (l.map fun t => t.source_iban) t.source_iban [],
      map_src_filter_comm]
    apply List.map_congr_left
    intro a ha
    obtain ⟨haIn, _⟩ := firstKeepAux_mem _ _ a ha
    have hane : a ≠ t.source_iban := by
      obtain ⟨x, hx, hxa⟩ := List.mem_map.mp haIn
      have hmem := List.of_mem_filter hx
      subst hxa
      simpa using hmem
    have hfeq : (t :: l).filter (fun x => decide (x.source_iban = a)) =
        (l.filter (fun x => decide (x.source_iban ≠ t.source_iban))).filter
          (fun x => decide (x.source_iban = a)) := by
      rw [List.filter_cons]
      have hh : decide (t.source_iban = a) = false :=
        decide_eq_false (fun hx => hane hx.symm)
      rw [filter_ne_then_eq l a t.source_iban hane]
      simp [hh]
    rw [hfeq]

/-- The blocks a list of records appends to one existing account group. -/
def withTail (reg : Registry) (ts : List Trsx) (p : String × List String) :
    String × List String :=
  (p.1, p.2 ++ (ts.filter (fun t => decide (t.source_iban = p.1))).map (get_qif_tx reg))


lemma map_withTail_nil (reg : Registry) (m : List (String × List String)) :
    m.map (withTail reg []) = m := by
  have h : m.map (withTail reg []) = m.map id :=
    List.map_congr_left (fun p _ => by simp [withTail])
  rw [h, List.map_id]

lemma appendBlock_withTail (reg : Registry) (t : Trsx) (ts : List Trsx)
    (m : List (String × List String)) :
    (appendBlock m t.source_iban (get_qif_tx reg t)).map (withTail reg ts) =
      m.map (withTail reg (t :: ts)) := by
  unfold appendBlock
  rw [List.map_map]
  apply List.map_congr_left
  intro p _
  simp only [Function.comp]
  by_cases hp : p.1 = t.source_iban
  · have hb : (p.1 == t.source_iban) = true := by simp [hp]
    rw [if_pos hb]
    unfold withTail
    have hd : (fun x : Trsx => decide (x.source_iban = p.1)) t = true := by simp [hp]
    rw [@List.filter_cons_of_pos Trsx (fun x => decide (x.source_iban = p.1)) t ts hd]
    simp
  · have hb : ¬ (p.1 == t.source_iban) = true := by simp [hp]
    rw [if_neg hb]
    unfold withTail
    have hd : ¬ (fun x : Trsx => decide (x.source_iban = p.1)) t = true := by
      simp only [decide_eq_true_eq]
      exact fun hh => hp hh.symm
    rw [@List.filter_cons_of_neg Trsx (fun x => decide (x.source_iban = p.1)) t ts hd]

lemma map_withTail_skip (reg : Registry) (t : Trsx) (ts : List Trsx)
    (m : List (String × List String)) (h : ∀ p ∈ m, ¬ p.1 = t.source_iban) :
    m.map (withTail reg ts) = m.map (withTail reg (t :: ts)) := by
  apply List.map_congr_left
  intro p hp
  unfold withTail
  have hd : ¬ (fun x : Trsx => decide (x.source_iban = p.1)) t = true := by
    simp only [decide_eq_true_eq]
    exact fun hh => h p hp hh.symm
  rw [@List.filter_cons_of_neg Trsx (fun x => decide (x.source_iban = p.1)) t ts hd]

lemma appendBlock_keys (m : List (String × List String)) (iban blk a : String) :
    (appendBlock m iban blk).any (fun p => p.1 == a) = m.any (fun p => p.1 == a) := by
  unfold appendBlock
  rw [List.any_map]
  congr 1
  funext q
  cases hq : (q.1 == iban) <;> simp [Function.comp, hq]

lemma getAccount_find (reg : Registry) (iban nm : String)
    (h : getAccount reg iban = .ok nm) :
    ((reg.find? (fun p => p.1 == iban)).map Prod.snd).getD "" = nm := by
  unfold getAccount at h
  revert h
  cases hf : (reg.find? fun p => p.1 == iban).map Prod.snd with
  | none => intro h2; exact absurd h2 (by simp)
  | some x => intro h2; exact Except.ok.inj h2

lemma filter_append_key :
    ∀ (ts : List Trsx) (m : List (String × List String)) (src : String) (v : List String),
      ts.filter (fun x => !((m ++ [(src, v)]).any (fun p => p.1 == x.source_iban))) =
        (ts.filter (fun x => !(m.any (fun p => p.1 == x.source_iban)))).filter
          (fun x => decide (x.source_iban ≠ src))
  | [], _, _, _ => rfl
  | x :: ts, m, src, v => by
      have rec := filter_append_key ts m src v
      cases hA : m.any (fun p => p.1 == x.source_iban) with
      | true =>
          have e1 : ¬ (fun x : Trsx =>
              !((m ++ [(src, v)]).any fun p => p.1 == x.source_iban)) x = true := by
            intro hcon
            have hcon2 : (!((m ++ [(src, v)]).any fun p => p.1 == x.source_iban)) = true :=
              hcon
            rw [List.any_append, hA] at hcon2
            exact absurd hcon2 (by simp)
          have e2 : ¬ (fun x : Trsx => !(m.any fun p => p.1 == x.source_iban)) x = true := by
            intro hcon
            have hcon2 : (!(m.any fun p => p.1 == x.source_iban)) = true := hcon
            rw [hA] at hcon2
            exact absurd hcon2 (by simp)
          rw [@List.filter_cons_of_neg Trsx
              (fun x => !((m ++ [(src, v)]).any fun p => p.1 == x.source_iban)) x ts e1,
            @List.filter_cons_of_neg Trsx
              (fun x => !(m.any fun p => p.1 == x.source_iban)) x ts e2]
          exact rec
      | false =>
          have e2 : (fun x : Trsx => !(m.any fun p => p.1 == x.source_iban)) x = true := by
            simp only [Bool.not_eq_true']
            exact hA
          rw [@List.filter_cons_of_pos Trsx
            (fun x => !(m.any fun p => p.1 == x.source_iban)) x ts e2]
          by_cases hS : src = x.source_iban
          · have hsb : (src == x.source_iban) = true := by simp [hS]
            have hval : ((m ++ [(src, v)]).any fun p => p.1 == x.source_iban) = true := by
              rw [List.any_append, hA]
              simp [hsb]
            have e1 : ¬ (fun x : Trsx =>
                !((m ++ [(src, v)]).any fun p => p.1 == x.source_iban)) x = true := by
              intro hcon
              have hcon2 : (!((m ++ [(src, v)]).any fun p => p.1 == x.source_iban)) = true :=
                hcon
              rw [hval] at hcon2
              exact absurd hcon2 (by simp)
            have e3 : ¬ (fun x : Trsx => decide (x.source_iban ≠ src)) x = true := by
              simp [hS]
            rw [@List.filter_cons_of_neg Trsx
                (fun x => !((m ++ [(src, v)]).any fun p => p.1 == x.source_iban)) x ts e1,
              @List.filter_cons_of_neg Trsx (fun x => decide (x.source_iban ≠ src)) x _ e3]
            exact rec
          · have hsb : (src == x.source_iban) = false := beq_eq_false_iff_ne.mpr hS
            have hval : ((m ++ [(src, v)]).any fun p => p.1 == x.source_iban) = false := by
              rw [List.any_append, hA]
              simp [hsb]
            have e1 : (fun x : Trsx =>
                !((m ++ [(src, v)]).any fun p => p.1 == x.source_iban)) x = true := by
              simp only [Bool.not_eq_true']
              exact hval
            have e3 : (fun x : Trsx => decide (x.source_iban ≠ src)) x = true := by
              simp only [decide_eq_true_eq]
              exact fun hh => hS hh.symm
            rw [@List.filter_cons_of_pos Trsx
                (fun x => !((m ++ [(src, v)]).any fun p => p.1 == x.source_iban)) x ts e1,
              @List.filter_cons_of_pos Trsx (fun x => decide (x.source_iban ≠ src)) x _ e3,
              rec]

lemma filter_many_then_eq :
    ∀ (ts : List Trsx) (m : List (String × List String)) (src : String),
      m.any (fun p => p.1 == src) = false →
      (ts.filter (fun x => !(m.any (fun p => p.1 == x.source_iban)))).filter
          (fun x => decide (x.source_iban = src)) =
        ts.filter (fun x => decide (x.source_iban = src))
  | [], _, _, _ => rfl
  | x :: ts, m, src, hm => by
      have rec := filter_many_then_eq ts m src hm
      by_cases hx : x.source_iban = src
      · have hv : m.any (fun p => p.1 == x.source_iban) = false := by
          rw [hx]
          exact hm
        have e1 : (fun x : Trsx => !(m.any fun p => p.1 == x.source_iban)) x = true := by
          simp only [Bool.not_eq_true']
          exact hv
        have e2 : (fun x : Trsx => decide (x.source_iban = src)) x = true := by simp [hx]
        rw [@List.filter_cons_of_pos Trsx
            (fun x => !(m.any fun p => p.1 == x.source_iban)) x ts e1,
          @List.filter_cons_of_pos Trsx (fun x => decide (x.source_iban = src)) x _ e2,
          @List.filter_cons_of_pos Trsx (fun x => decide (x.source_iban = src)) x ts e2,
          rec]
      · have e2 : ¬ (fun x : Trsx => decide (x.source_iban = src)) x = true := by simp [hx]
        cases hq : m.any (fun p => p.1 == x.source_iban) with
        | true =>
            have e1 : ¬ (fun x : Trsx => !(m.any fun p => p.1 == x.source_iban)) x = true := by
              intro hcon
              have hcon2 : (!(m.any fun p => p.1 == x.source_iban)) = true := hcon
              rw [hq] at hcon2
              exact absurd hcon2 (by simp)
            rw [@List.filter_cons_of_neg Trsx
                (fun x => !(m.any fun p => p.1 == x.source_iban)) x ts e1,
              @List.filter_cons_of_neg Trsx (fun x => decide (x.source_iban = src)) x ts e2]
            exact rec
        | false =>
            have e1 : (fun x : Trsx => !(m.any fun p => p.1 == x.source_iban)) x = true := by
              simp only [Bool.not_eq_true']
              exact hq
            rw [@List.filter_cons_of_pos Trsx
                (fun x => !(m.any fun p => p.1 == x.source_iban)) x ts e1,
              @List.filter_cons_of_neg Trsx (fun x => decide (x.source_iban = src)) x _ e2,
              @List.filter_cons_of_neg Trsx (fun x => decide (x.source_iban = src)) x ts e2]
            exact rec

/-- L2: the dict produced by a sequence of insertions equals: every existing
group extended with its records' blocks, followed by the spec-side grouping
of the records of new accounts. -/
lemma addAllAccounts_spec (reg : Registry) :
    ∀ (ts : List Trsx) (m res : List (String × List String)),
      addAllAccounts reg m ts = .ok res →
      res = m.map (withTail reg ts) ++
        specAccountsOf reg
          (ts.filter (fun t => !(m.any (fun p => p.1 == t.source_iban))))
  | [], m, res, h => by
      have h1 : m = res := Except.ok.inj h
      subst h1
      rw [map_withTail_nil]
      simp [specAccountsOf, firstKeepAux]
  | t :: ts, m, res, h => by
      by_cases hk : m.any (fun p => p.1 == t.source_iban) = true
      · have he : ensureAccount reg m t.source_iban = .ok m := by
          unfold ensureAccount
          rw [if_pos hk]
        simp only [addAllAccounts, he] at h
        have ihres := addAllAccounts_spec reg ts
          (appendBlock m t.source_iban (get_qif_tx reg t)) res h
        rw [ihres, appendBlock_withTail]
        congr 1
        have hpred : (fun x : Trsx =>
            !((appendBlock m t.source_iban (get_qif_tx reg t)).any
              (fun p => p.1 == x.source_iban))) =
            (fun x : Trsx => !(m.any (fun p => p.1 == x.source_iban))) := by
          funext x
          rw [appendBlock_keys]
        rw [hpred]
        have harg : (t :: ts).filter (fun x => !(m.any (fun p => p.1 == x.source_iban))) =
            ts.filter (fun x => !(m.any (fun p => p.1 == x.source_iban))) := by
          have e : ¬ (fun x : Trsx => !(m.any (fun p => p.1 == x.source_iban))) t = true := by
            intro hcon
            have hcon2 : (!(m.any fun p => p.1 == t.source_iban)) = true := hcon
            rw [hk] at hcon2
            exact absurd hcon2 (by simp)
          rw [@List.filter_cons_of_neg Trsx
            (fun x => !(m.any (fun p => p.1 == x.source_iban))) t ts e]
        rw [harg]
      · have hkf : m.any (fun p => p.1 == t.source_iban) = false := by
          cases hq : m.any (fun p => p.1 == t.source_iban) with
          | false => rfl
          | true => exact absurd hq hk
        have hmkeys : ∀ p ∈ m, ¬ p.1 = t.source_iban := by
          intro p hp hh
          exact (List.any_eq_false.mp hkf p hp) (by simp [hh])
        cases hg : getAccount reg t.source_iban with
        | error err =>
            have he : ensureAccount reg m t.source_iban = .error err := by
              unfold ensureAccount
              rw [if_neg hk, hg]
            simp only [addAllAccounts, he] at h
            exact absurd h (by simp)
        | ok nm =>
            have he : ensureAccount reg m t.source_iban =
                .ok (m ++ [(t.source_iban, [qifAccountBlock nm "Bank"])]) := by
              unfold ensureAccount
              rw [if_neg hk, hg]
            simp only [addAllAccounts, he] at h
            have hap : appendBlock (m ++ [(t.source_iban, [qifAccountBlock nm "Bank"])])
                t.source_iban (get_qif_tx reg t) =
                m ++ [(t.source_iban, [qifAccountBlock nm "Bank", get_qif_tx reg t])] := by
              unfold appendBlock
              rw [List.map_append]
              congr 1
              · have hid : ∀ p ∈ m,
                    (if p.1 == t.source_iban then (p.1, p.2 ++ [get_qif_tx reg t]) else p) =
                      p := by
                  intro p hp
                  rw [if_neg]
                  intro hb
                  exact hmkeys p hp (by simpa using hb)
                rw [List.map_congr_left hid]
                simp
              · simp
            rw [hap] at h
            have ihres := addAllAccounts_spec reg ts
              (m ++ [(t.source_iban, [qifAccountBlock nm "Bank", get_qif_tx reg t])]) res h
            rw [ihres, List.map_append, map_withTail_skip reg t ts m hmkeys,
              List.append_assoc]
            congr 1
            have hfc : (t :: ts).filter (fun x => !(m.any (fun p => p.1 == x.source_iban))) =
                t :: ts.filter (fun x => !(m.any (fun p => p.1 == x.source_iban))) := by
              have e : (fun x : Trsx => !(m.any (fun p => p.1 == x.source_iban))) t = true := by
                simp only [Bool.not_eq_true']
                exact hkf
              rw [@List.filter_cons_of_pos Trsx
                (fun x => !(m.any (fun p => p.1 == x.source_iban))) t ts e]
            rw [hfc, specAccountsOf_cons, filter_append_key ts m t.source_iban _]
            simp only [List.map_cons, List.map_nil, List.singleton_append]
            congr 1
            unfold withTail
            rw [filter_many_then_eq ts m t.source_iban hkf,
              getAccount_find reg t.source_iban nm hg]
            simp

/-- C9: after any successful sequence of adds starting from the fresh
aggregator, the `accounts` dict equals the spec-side grouping of the
accepted (non-duplicate) records: one group per source account, in the order
the accounts were first encountered, each group headed by exactly one
account-header block followed by the rendered blocks of exactly that
account's accepted records in insertion order — so every accepted record's
block is placed in precisely the group keyed by its `source_account`, and
finalization (`renderOut`) emits the groups in that order. -/
theorem aggregator_grouping_spec (reg : Registry) (ts : List Trsx) (st : QIFState)
    (h : addAll reg initState ts = .ok st) :
    st.accounts = specAccountsOf reg (acceptedList [] ts) ∧
    renderOut st = ((specAccountsOf reg (acceptedList [] ts)).map Prod.snd).flatten := by
  have h1 := addAll_accounts reg ts initState st h
  have h2 := addAllAccounts_spec reg (acceptedList [] ts) [] st.accounts h1
  have hacc : st.accounts = specAccountsOf reg (acceptedList [] ts) := by
    rw [h2]
    simp
  exact ⟨hacc, by unfold renderOut; rw [hacc]⟩

theorem aggregator_grouping_spec_witness :
    addAll regA initState [tW1, tW1] = .ok { stW1 with skipped := 1 } ∧
    (({ stW1 with skipped := 1 } : QIFState).accounts =
        specAccountsOf regA (acceptedList [] [tW1, tW1]) ∧
      renderOut { stW1 with skipped := 1 } =
        ((specAccountsOf regA (acceptedList [] [tW1, tW1])).map Prod.snd).flatten) :=
  ⟨by decide,
    aggregator_grouping_spec regA [tW1, tW1] { stW1 with skipped := 1 } (by decide)⟩
